import Mathlib

/-!
Shallow embedding of the tari-dan local-proposal handling core:
`dan_layer/consensus/src/hotstuff/on_receive_local_proposal.rs` and the
SQLite state-store read operations it relies on
(`dan_layer/state_store_sqlite/src/reader.rs`).

Machine integers (`u64` heights, row ids) are modelled as `Nat`; Rust's
`saturating_sub` coincides with truncated `Nat` subtraction.  32-byte hashes
(block ids, transaction ids, public keys) are modelled as `Nat`; the genesis
block id is the zero hash, modelled as `0`.  Fallible Rust code
(`Result<_, StorageError>` / `Result<_, HotStuffError>`) is modelled with
`Option`/`Except`.  SQL tables are lists kept in ascending row-id order
(the physical scan order of the `sqlite` tables).
-/

namespace TariDan

/-- Block identifier. Stands for the 32-byte block hash; genesis is the zero hash. -/
abbrev BlockId := Nat

/-- The genesis block id (`BlockId::genesis()`, the zero hash). -/
def genesisId : BlockId := 0

/-- Modelled from the spec: `BlockId::is_genesis` (from `tari_dan_storage`,
not under `src/`) — the id equals the zero/genesis id. -/
def isGenesisId (b : BlockId) : Bool := b == genesisId

/-- A quorum certificate as carried by a block (`QuorumCertificate`):
the fields the handler reads — certified block id and height. -/
structure QuorumCertificate where
  blockId : BlockId
  blockHeight : Nat
  deriving Repr, DecidableEq

/-- Modelled from the spec: `QuorumCertificate::is_genesis` (from
`tari_dan_storage`, not under `src/`) — the QC certifies the genesis block. -/
def QuorumCertificate.isGenesis (qc : QuorumCertificate) : Bool :=
  isGenesisId qc.blockId

/-- A block row as stored in the `blocks` table, joined with its justify QC
(`blocks_get` joins the block with its quorum certificate).  Commands are
abstracted to the data the handler reads from them: the list of transaction
ids (`all_transaction_ids`) and the command count. -/
structure Block where
  id : BlockId
  parentId : BlockId
  justify : QuorumCertificate
  height : Nat
  epoch : Nat
  proposedBy : Nat
  shard : Nat
  commandCount : Nat
  isDummy : Bool
  merkleRoot : Nat
  timestamp : Nat
  baseLayerBlockHeight : Nat
  baseLayerBlockHash : Nat
  transactionIds : List Nat
  deriving Repr, DecidableEq

/-- Transaction pool stage (`TransactionPoolStage`). -/
inductive TransactionPoolStage where
  | New
  | Prepared
  | LocalPrepared
  | AllPrepared
  | AllAccepted
  | SomePrepared
  deriving Repr, DecidableEq

/-- Transaction decision (`Decision`). -/
inductive Decision where
  | Commit
  | Abort
  | Deferred
  deriving Repr, DecidableEq

/-- A row of the `transaction_pool` table
(`sql_models::TransactionPoolRecord`), restricted to the columns the
handler reads. -/
structure PoolRecordRow where
  transactionId : Nat
  stage : TransactionPoolStage
  isReady : Bool
  localDecision : Option Decision
  deriving Repr, DecidableEq

/-- A row of the `transaction_pool_state_updates` table
(`sql_models::TransactionPoolStateUpdate`).  `id` is the auto-increment
row id selected by `create_transaction_atom_updates_query`. -/
structure PoolStateUpdateRow where
  id : Nat
  blockId : BlockId
  blockHeight : Nat
  transactionId : Nat
  stage : TransactionPoolStage
  isReady : Bool
  localDecision : Option Decision
  deriving Repr, DecidableEq

/-- Modelled from the spec: `sql_models::TransactionPoolRecord::try_convert`
(not under `src/`) — the effective pool record is the base row overlaid
with the given state update when one is present (the update carries the
speculative stage, readiness and local decision). -/
def PoolRecordRow.tryConvert (rec : PoolRecordRow) (u : Option PoolStateUpdateRow) :
    PoolRecordRow :=
  match u with
  | none => rec
  | some u =>
    { rec with stage := u.stage, isReady := u.isReady, localDecision := u.localDecision }

/-- A row of the `transactions` table (`TransactionRecord`), restricted to
what the handler reads: id, the executed flag and the finalized flag, plus
the decision used when inserting the executed atom into the pool. -/
structure TransactionRecord where
  id : Nat
  isExecuted : Bool
  isFinalized : Bool
  decision : Decision
  deriving Repr, DecidableEq

/-- Foreign proposal state (`ForeignProposalState`). -/
inductive ForeignProposalState where
  | New
  | Proposed
  | Deleted
  deriving Repr, DecidableEq

/-- A row of the `foreign_proposals` table (`ForeignProposal`). -/
structure ForeignProposal where
  bucket : Nat
  blockId : BlockId
  transactions : List Nat
  baseLayerBlockHeight : Nat
  state : ForeignProposalState
  proposedHeight : Nat
  deriving Repr, DecidableEq

/-- The persistent store visible to the local-proposal handler.  Each list
models a table in ascending row-id order; the singleton pointers
(`locked_block`, `leaf_blocks`, `high_qcs`) are modelled by their
`ORDER BY id DESC LIMIT 1` current value, `none` when the table is empty. -/
structure Store where
  blocks : List Block
  processed : List BlockId
  qcs : List QuorumCertificate
  transactions : List TransactionRecord
  pool : List PoolRecordRow
  poolUpdates : List PoolStateUpdateRow
  foreignProposals : List ForeignProposal
  lockedBlock : Option BlockId
  leafBlock : Option BlockId
  highQc : Option QuorumCertificate
  deriving Repr, DecidableEq

/-- `blocks_get`: fetch a block (joined with its justify QC) by id;
`none` models the `NotFound` error. -/
def blocksGet? (s : Store) (id : BlockId) : Option Block :=
  s.blocks.find? (fun b => b.id == id)

/-- `blocks_exists`: row-count test for a block id. -/
def blocksExists (s : Store) (id : BlockId) : Bool :=
  (blocksGet? s id).isSome

/-- Modelled from the spec: `block_has_been_processed` (from
`tari_dan_storage`, not under `src/`) — whether the block id has already
been processed; modelled as membership in a processed-ids table. -/
def hasBeenProcessed (s : Store) (id : BlockId) : Bool :=
  s.processed.contains id

/-- The recursive CTE of `get_block_ids_between`: starting from the row of
`end_block`, repeatedly join the parent row while the previously produced
row is not `start_block`; `LIMIT 1000` caps the number of produced rows, so
one unit of fuel is spent per emitted row.  Returns the joined block rows
in emission order (`end_block` first). -/
def blockRowsBetweenAux (s : Store) (startB : BlockId) : Nat → BlockId → List Block
  | 0, _ => []
  | fuel + 1, cur =>
    match blocksGet? s cur with
    | none => []
    | some b => b :: (if cur == startB then [] else blockRowsBetweenAux s startB fuel b.parentId)

/-- `get_block_ids_between(start, end)`: ids of the ancestors of `end`
down to (and including) `start`, at most 1000 rows (the CTE `LIMIT`). -/
def getBlockIdsBetween (s : Store) (startB endB : BlockId) : List BlockId :=
  (blockRowsBetweenAux s startB 1000 endB).map (fun b => b.id)

/-- `get_block_ids_that_change_state_between`: the same recursive walk,
with the final `WHERE is_dummy = 0 AND command_count > 0` filter. -/
def getBlockIdsThatChangeStateBetween (s : Store) (startB endB : BlockId) : List BlockId :=
  ((blockRowsBetweenAux s startB 1000 endB).filter
    (fun b => !b.isDummy && decide (0 < b.commandCount))).map (fun b => b.id)

/-- The `ROW_NUMBER() OVER (PARTITION BY transaction_id ORDER BY block_height
DESC)` rank-1 row of one partition, scanning the partition's rows in row-id
order: a later row replaces the current best only when its `block_height` is
strictly greater, so the earliest row (least row id) among those of maximal
`block_height` is kept. -/
def rank1Step (acc : Option PoolStateUpdateRow) (u : PoolStateUpdateRow) :
    Option PoolStateUpdateRow :=
  match acc with
  | none => some u
  | some v => if v.blockHeight < u.blockHeight then some u else some v

def rank1? (rows : List PoolStateUpdateRow) : Option PoolStateUpdateRow :=
  rows.foldl rank1Step none

/-- `create_transaction_atom_updates_query`: select the
`transaction_pool_state_updates` rows whose `block_id` is among the given
block ids and whose `transaction_id` is among the given transaction ids,
then keep only the rank-1 row of each `transaction_id` partition. -/
def createTransactionAtomUpdatesQuery (s : Store) (txIds : List Nat)
    (blockIds : List BlockId) : List PoolStateUpdateRow :=
  let rows := s.poolUpdates.filter
    (fun u => blockIds.contains u.blockId && txIds.contains u.transactionId)
  rows.filter (fun u =>
    decide (rank1? (rows.filter (fun v => v.transactionId == u.transactionId)) = some u))

/-- `get_transaction_atom_state_updates_between_blocks`: empty input or no
applicable (state-changing) block short-circuits to an empty map; otherwise
run the rank-1 query and key each update by its transaction id. -/
def getTransactionAtomStateUpdatesBetweenBlocks (s : Store) (fromB toB : BlockId)
    (txIds : List Nat) : List (Nat × PoolStateUpdateRow) :=
  if txIds.isEmpty then []
  else
    let applicable := getBlockIdsThatChangeStateBetween s fromB toB
    if applicable.isEmpty then []
    else
      (createTransactionAtomUpdatesQuery s txIds applicable).map
        (fun u => (u.transactionId, u))

/-- `transaction_pool_get_for_blocks(from, to, tx_id)`: fetch the state
updates between the two blocks for this transaction, fetch the pool row
(`none` models the not-found error), and overlay the update. -/
def transactionPoolGetForBlocks (s : Store) (fromB toB : BlockId) (tid : Nat) :
    Option PoolRecordRow :=
  let updates := getTransactionAtomStateUpdatesBetweenBlocks s fromB toB [tid]
  (s.pool.find? (fun r => r.transactionId == tid)).map
    (fun rec => rec.tryConvert (updates.lookup tid))

/-- Modelled from the spec: `TransactionPool::get(tx, leaf, tx_id)` (from
`tari_dan_storage`, not under `src/`) — the effective record along the
chain from the locked block to `leaf`, via `transaction_pool_get_for_blocks`;
fails when the locked block is not set or the pool row is missing. -/
def transactionPoolGet (s : Store) (leaf : BlockId) (tid : Nat) : Option PoolRecordRow :=
  match s.lockedBlock with
  | none => none
  | some locked => transactionPoolGetForBlocks s locked leaf tid

/-- `transaction_pool_exists`: row-count test for a pool record. -/
def transactionPoolExists (s : Store) (tid : Nat) : Bool :=
  s.pool.any (fun r => r.transactionId == tid)

/-- `transactions_get_any`: the rows of the `transactions` table whose id is
among the requested ids (missing ids are simply not returned). -/
def transactionsGetAny (s : Store) (txIds : List Nat) : List TransactionRecord :=
  s.transactions.filter (fun t => txIds.contains t.id)

/-- `transactions_get`: fetch a single transaction record by id. -/
def transactionsGet? (s : Store) (tid : Nat) : Option TransactionRecord :=
  s.transactions.find? (fun t => t.id == tid)

/-- `foreign_proposal_get_all_proposed(to_height)`: the foreign-proposal rows
in state `Proposed` with `proposed_height <= to_height`. -/
def foreignProposalGetAllProposed (s : Store) (toHeight : Nat) : List ForeignProposal :=
  s.foreignProposals.filter
    (fun p => p.state == ForeignProposalState.Proposed && decide (p.proposedHeight ≤ toHeight))

/-- `transaction_pool_get_many_ready(max_txs)`: load the whole pool ordered
by ascending transaction id; on an empty pool return the empty list before
touching the pointer tables; otherwise overlay the latest state updates
between the locked block and the leaf block, keep the records whose
effective `is_ready` is true, and take at most `max_txs` of them.  `none`
models a storage error from the pointer lookups. -/
def transactionPoolGetManyReady (s : Store) (maxTxs : Nat) : Option (List PoolRecordRow) :=
  let readyTxs := s.pool.insertionSort (fun a b => a.transactionId ≤ b.transactionId)
  if readyTxs.isEmpty then some []
  else do
    let locked ← s.lockedBlock
    let leaf ← s.leafBlock
    let updates := getTransactionAtomStateUpdatesBetweenBlocks s locked leaf
      (readyTxs.map (fun r => r.transactionId))
    some ((((readyTxs.map
      (fun rec => rec.tryConvert (updates.lookup rec.transactionId))).filter
        (fun rec => rec.isReady)).take maxTxs))

/-- The handler's external collaborators for one `handle` call: the network
id, the epoch-activity oracle, and — for the committee fetched by
`(block.epoch, block.proposed_by)` — the leader strategy
(`get_leader_public_key(local_committee, height)`) and the local committee
shard (`local_committee_info.shard()`). -/
structure Env where
  network : Nat
  epochIsActive : Nat → Bool
  leaderFor : Nat → Nat
  shard : Nat

/-- `ProposalValidationError` variants produced by the handler. -/
inductive ProposalValidationError where
  | blockAlreadyProcessed
  | justifyBlockNotFound
  | justifyBlockInvalid
  | candidateBlockNotHigherThanJustify
  | candidateBlockDoesNotExtendJustify
  | notSafeBlock
  deriving Repr, DecidableEq

/-- `HotStuffError`: a proposal-validation error, an inactive epoch, or any
storage-layer failure (collapsed into one constructor). -/
inductive HotStuffError where
  | proposalValidationError (e : ProposalValidationError)
  | epochNotActive
  | storageError
  deriving Repr, DecidableEq

/-- Modelled from the spec: `ValidBlock` (from `tari_dan_storage`, not under
`src/`) — carries the validated block and the dummy-block list passed to
`with_dummy_blocks`. -/
structure ValidBlock where
  block : Block
  dummyBlocks : List Block
  deriving Repr, DecidableEq

/-- `ValidBlock::new`: a valid block with no dummy blocks. -/
def ValidBlock.new (b : Block) : ValidBlock := ⟨b, []⟩

/-- `ValidBlock::with_dummy_blocks`. -/
def ValidBlock.withDummyBlocks (b : Block) (ds : List Block) : ValidBlock := ⟨b, ds⟩

/-- Modelled from the spec: the id of a synthesised dummy block
(`Block::dummy_block` hashes the block contents; not under `src/`).
Modelled as an injective pairing of the parent id and the height, offset so
it never collides with the genesis id. -/
def dummyBlockId (parentId height : Nat) : Nat :=
  (parentId + height) * (parentId + height) + height + 1

/-- Modelled from the spec: `Block::dummy_block(network, parent, proposed_by,
height, justify, epoch, shard, merkle_root, timestamp,
base_layer_block_height, base_layer_block_hash)` (not under `src/`) — a
dummy block with no commands carrying exactly those fields. -/
def Block.dummyBlock (_network parentId proposedBy height : Nat)
    (justify : QuorumCertificate) (epoch shard merkleRoot timestamp blh blhash : Nat) :
    Block :=
  { id := dummyBlockId parentId height
    parentId := parentId
    justify := justify
    height := height
    epoch := epoch
    proposedBy := proposedBy
    shard := shard
    commandCount := 0
    isDummy := true
    merkleRoot := merkleRoot
    timestamp := timestamp
    baseLayerBlockHeight := blh
    baseLayerBlockHash := blhash
    transactionIds := [] }

/-- The parent-chain ids of a starting id, walking stored parent links; the
walk stops at a self-parenting (genesis) row or a missing row, and the fuel
(one unit per visited row) keeps it total. -/
def ancestorChainIds (s : Store) : Nat → BlockId → List BlockId
  | 0, _ => []
  | fuel + 1, cur =>
    match blocksGet? s cur with
    | none => []
    | some b => cur :: (if b.parentId == cur then [] else ancestorChainIds s fuel b.parentId)

/-- Modelled from the spec: `Block::is_safe` (from `tari_dan_storage`, not
under `src/`) — the candidate extends the current `LockedBlock` through its
parent chain; fails (`none`) when no locked block is set. -/
def Block.isSafe (s : Store) (b : Block) : Option Bool := do
  let locked ← s.lockedBlock
  some (b.id == locked || (ancestorChainIds s (s.blocks.length + 1) b.parentId).contains locked)

/-- The dummy-synthesis loop of `validate_local_proposed_block`: while the
last block's id differs from the candidate's parent, fail with
`CandidateBlockDoesNotExtendJustify` if the last block's height already
exceeds the candidate's, else append the dummy block for the next height.
`timestamp`, `blh`, `blhash` are the values captured from the justify block
before the loop.  Each iteration raises the last height by one and the loop
errors as soon as that height exceeds `cand.height`, so the fuel
`cand.height + 2` supplied at the call site is never exhausted. -/
def synthLoop (env : Env) (cand : Block) (timestamp blh blhash : Nat) :
    Nat → List Block → Block → Except HotStuffError (List Block)
  | 0, _, _ =>
    Except.error (.proposalValidationError .candidateBlockDoesNotExtendJustify)
  | fuel + 1, acc, last =>
    if last.id == cand.parentId then Except.ok acc
    else if cand.height < last.height then
      Except.error (.proposalValidationError .candidateBlockDoesNotExtendJustify)
    else
      let next := last.height + 1
      let d := Block.dummyBlock env.network last.id (env.leaderFor next) next
        cand.justify cand.epoch env.shard cand.merkleRoot timestamp blh blhash
      synthLoop env cand timestamp blh blhash fuel (acc ++ [d]) d

/-- `validate_local_proposed_block(tx, candidate, local_committee,
local_committee_info)`: the rule sequence of
`on_receive_local_proposal.rs` — already-processed check, justify lookup
(`JustifyBlockNotFound` on a miss), justify-height match, genesis
short-circuit, monotonic-height check, dummy synthesis when the justify is
not the parent (the justify block itself is pushed first into the dummy
list), and otherwise the safety check. -/
def validateLocalProposedBlock (env : Env) (s : Store) (cand : Block) :
    Except HotStuffError ValidBlock :=
  if hasBeenProcessed s cand.id then
    Except.error (.proposalValidationError .blockAlreadyProcessed)
  else
    match blocksGet? s cand.justify.blockId with
    | none => Except.error (.proposalValidationError .justifyBlockNotFound)
    | some justifyBlock =>
      if justifyBlock.height ≠ cand.justify.blockHeight then
        Except.error (.proposalValidationError .justifyBlockInvalid)
      else if isGenesisId cand.parentId && cand.justify.isGenesis then
        Except.ok (ValidBlock.new cand)
      else if cand.height < justifyBlock.height then
        Except.error (.proposalValidationError .candidateBlockNotHigherThanJustify)
      else if justifyBlock.id ≠ cand.parentId then
        match synthLoop env cand justifyBlock.timestamp justifyBlock.baseLayerBlockHeight
            justifyBlock.baseLayerBlockHash (cand.height + 2) [justifyBlock] justifyBlock with
        | Except.ok dummies => Except.ok (ValidBlock.withDummyBlocks cand dummies)
        | Except.error e => Except.error e
      else
        match Block.isSafe s cand with
        | none => Except.error .storageError
        | some true => Except.ok (ValidBlock.new cand)
        | some false => Except.error (.proposalValidationError .notSafeBlock)

/-- The `FOREIGN_PROPOSAL_TIMEOUT` constant of
`update_foreign_proposal_transactions`, in block-height units. -/
def FOREIGN_PROPOSAL_TIMEOUT : Nat := 1000

/-- Modelled from the spec: `TransactionPoolRecord::update_local_decision`
(from `tari_dan_storage`, not under `src/`) — appends a pool-state update
keyed by `(tx_id, block_id)` carrying the new local decision (the record's
current stage and readiness are copied along).  The fresh row id extends the
ascending row-id order of the table. -/
def updateLocalDecision (s : Store) (rec : PoolRecordRow) (blockId : BlockId)
    (blockHeight : Nat) (d : Decision) : Store :=
  { s with
    poolUpdates := s.poolUpdates ++
      [{ id := (s.poolUpdates.map (fun u => u.id)).foldl max 0 + 1
         blockId := blockId
         blockHeight := blockHeight
         transactionId := rec.transactionId
         stage := rec.stage
         isReady := rec.isReady
         localDecision := some d }] }

/-- Modelled from the spec: `ForeignProposal::delete` (from
`tari_dan_storage`, not under `src/`) — removes the rows matching the
proposal's uniqueness key `(bucket, block_id, transactions,
base_layer_block_height)` (the key used by `foreign_proposal_exists`). -/
def foreignProposalDelete (s : Store) (p : ForeignProposal) : Store :=
  { s with
    foreignProposals := s.foreignProposals.filter
      (fun q => !(q.bucket == p.bucket && q.blockId == p.blockId &&
        q.transactions == p.transactions &&
        q.baseLayerBlockHeight == p.baseLayerBlockHeight)) }

/-- The inner loop of `update_foreign_proposal_transactions` over one
proposal's fetched transactions: a finalized transaction whose effective
pool record (at the candidate block as leaf) is still in stage `New` or
`Prepared` gets its local decision set to `Abort` and raises the
`has_unresolved_transactions` flag; a missing pool record is a storage
error (`none`). -/
def abortLoop (b : Block) : List TransactionRecord → Store → Bool → Option (Store × Bool)
  | [], s, flag => some (s, flag)
  | t :: rest, s, flag =>
    if t.isFinalized then
      match transactionPoolGet s b.id t.id with
      | none => none
      | some rec =>
        if rec.stage == TransactionPoolStage.New || rec.stage == TransactionPoolStage.Prepared then
          abortLoop b rest (updateLocalDecision s rec b.id b.height Decision.Abort) true
        else abortLoop b rest s flag
    else abortLoop b rest s flag

/-- One iteration of the proposal loop of
`update_foreign_proposal_transactions`: fetch the proposal's known
transactions, run the abort loop, and delete the proposal when no
unresolved transaction was found. -/
def processProposal (b : Block) (s : Store) (p : ForeignProposal) : Option Store :=
  match abortLoop b (transactionsGetAny s p.transactions) s false with
  | none => none
  | some (s', unresolved) =>
    if unresolved then some s' else some (foreignProposalDelete s' p)

/-- `update_foreign_proposal_transactions(tx, block)`: fetch all `Proposed`
foreign proposals up to `block.height.saturating_sub(1000)` (truncated `Nat`
subtraction is exactly `saturating_sub`) and process each in turn. -/
def updateForeignProposalTransactions (s : Store) (b : Block) : Option Store :=
  (foreignProposalGetAllProposed s (b.height - FOREIGN_PROPOSAL_TIMEOUT)).foldlM
    (processProposal b) s

/-- `validate_block_header(tx, block, ...)`: run
`validate_local_proposed_block` and then
`update_foreign_proposal_transactions`; a `JustifyBlockNotFound` validation
error propagates (sync needed), any other `ProposalValidationError` is
swallowed (`none` block, store untouched), and other errors bubble up. -/
def validateBlockHeader (env : Env) (s : Store) (cand : Block) :
    Except HotStuffError (Option ValidBlock × Store) :=
  let result : Except HotStuffError (ValidBlock × Store) :=
    match validateLocalProposedBlock env s cand with
    | Except.error e => Except.error e
    | Except.ok vb =>
      match updateForeignProposalTransactions s vb.block with
      | none => Except.error .storageError
      | some s' => Except.ok (vb, s')
  match result with
  | Except.ok (vb, s') => Except.ok (some vb, s')
  | Except.error (.proposalValidationError .justifyBlockNotFound) =>
    Except.error (.proposalValidationError .justifyBlockNotFound)
  | Except.error (.proposalValidationError _) => Except.ok (none, s)
  | Except.error e => Except.error e

/-- Modelled from the spec: `TransactionPool::insert(atom)` (from
`tari_dan_storage`, not under `src/`) — no-op when a record with the atom's
transaction id exists, else insert with stage `New` and
`is_ready = true` unless the atom's decision is `Deferred`. -/
def poolInsert (s : Store) (tid : Nat) (dec : Decision) : Store :=
  if transactionPoolExists s tid then s
  else
    { s with
      pool := s.pool ++
        [{ transactionId := tid
           stage := TransactionPoolStage.New
           isReady := decide (dec ≠ Decision.Deferred)
           localDecision := none }] }

/-- The pool-reconciliation loop of `process_block`: for each transaction id
of the valid block not yet in the pool, load its transaction record
(`none` models the not-found storage error) and insert the executed atom
when the mempool executed it, else a `Deferred` atom. -/
def ensurePoolTxs (s : Store) : List Nat → Option Store
  | [] => some s
  | tid :: rest =>
    if transactionPoolExists s tid then ensurePoolTxs s rest
    else
      match transactionsGet? s tid with
      | none => none
      | some t =>
        ensurePoolTxs
          (poolInsert s tid (if t.isExecuted then t.decision else Decision.Deferred)) rest

/-- Modelled from the spec: `QuorumCertificate::save` (from
`tari_dan_storage`, not under `src/`) — insert-if-missing of the QC row. -/
def qcSave (s : Store) (qc : QuorumCertificate) : Store :=
  if s.qcs.contains qc then s else { s with qcs := s.qcs ++ [qc] }

/-- Modelled from the spec: `Block::save` (from `tari_dan_storage`, not
under `src/`) — insert-if-missing of the block row. -/
def blockSave (s : Store) (b : Block) : Store :=
  if blocksExists s b.id then s else { s with blocks := s.blocks ++ [b] }

/-- `high_qc_update` via `justify().update_high_qc(tx)`: set `HighQc` only
when the new QC's block height exceeds the current one; returns the
resulting current high QC. -/
def updateHighQc (s : Store) (qc : QuorumCertificate) : Store × QuorumCertificate :=
  match s.highQc with
  | none => ({ s with highQc := some qc }, qc)
  | some cur =>
    if cur.blockHeight < qc.blockHeight then ({ s with highQc := some qc }, qc)
    else (s, cur)

/-- `save_block`: save the justify QC, all dummy blocks, and the block
itself, then update the high QC from the justify.  (The foreign-send
counter save touches no table read by the verified claims and is omitted.) -/
def saveBlock (s : Store) (vb : ValidBlock) : Store × QuorumCertificate :=
  let s1 := qcSave s vb.block.justify
  let s2 := vb.dummyBlocks.foldl blockSave s1
  let s3 := blockSave s2 vb.block
  updateHighQc s3 vb.block.justify

deriving instance DecidableEq for Except

/-- The outcome of one `process_block`/`handle` call: the returned result,
the store after the write transaction (rolled back to the input store on
error), the pacemaker `update_view(height, high_qc_height)` call if any,
the block handed to the ready-to-vote step if any, and whether the
`on_block_validation_failed` hook was invoked. -/
structure HandleResult where
  result : Except HotStuffError Unit
  store : Store
  pacemakerCall : Option (Nat × Nat)
  readyToVote : Option ValidBlock
  hookCalled : Bool
  deriving Repr, DecidableEq

/-- `process_block(block)`: reject an inactive epoch; inside one write
transaction, short-circuit when the block already exists, validate the
header, reconcile the pool, and persist the block; on commit call the
pacemaker with `(valid_block.height, high_qc.block_height)` and hand the
block to the ready-to-vote step.  An error rolls the write transaction
back, so the store reverts to the input store. -/
def processBlock (env : Env) (s : Store) (b : Block) : HandleResult :=
  if !env.epochIsActive b.epoch then
    ⟨Except.error .epochNotActive, s, none, none, false⟩
  else
    let body : Except HotStuffError (Option (QuorumCertificate × ValidBlock) × Store) :=
      if blocksExists s b.id then Except.ok (none, s)
      else
        match validateBlockHeader env s b with
        | Except.error e => Except.error e
        | Except.ok (none, s1) => Except.ok (none, s1)
        | Except.ok (some vb, s1) =>
          match ensurePoolTxs s1 vb.block.transactionIds with
          | none => Except.error .storageError
          | some s2 =>
            let (s3, highQc) := saveBlock s2 vb
            Except.ok (some (highQc, vb), s3)
    match body with
    | Except.ok (none, s') => ⟨Except.ok (), s', none, none, false⟩
    | Except.ok (some (highQc, vb), s') =>
      ⟨Except.ok (), s', some (vb.block.height, highQc.blockHeight), some vb, false⟩
    | Except.error e => ⟨Except.error e, s, none, none, false⟩

/-- `handle(ProposalMessage { block })`: run `process_block`; when it fails
with a `ProposalValidationError` invoke the `on_block_validation_failed`
hook and return the error; all other outcomes pass through unchanged. -/
def handle (env : Env) (s : Store) (b : Block) : HandleResult :=
  let r := processBlock env s b
  match r.result with
  | Except.error (.proposalValidationError _) => { r with hookCalled := true }
  | _ => r

/-! Concrete fixtures used by witnesses and counterexamples. -/

/-- An environment where every epoch is active, the leader strategy always
names validator `7`, and the local shard is `0`. -/
def envA : Env :=
  { network := 0, epochIsActive := fun _ => true, leaderFor := fun _ => 7, shard := 0 }

/-- The genesis block row: id `0`, self-parenting, height `0`, one command
(so that it is state-changing for the update queries). -/
def genesisBlock : Block :=
  { id := 0, parentId := 0, justify := ⟨0, 0⟩, height := 0, epoch := 1, proposedBy := 7
    shard := 0, commandCount := 1, isDummy := false, merkleRoot := 0, timestamp := 0
    baseLayerBlockHeight := 0, baseLayerBlockHash := 0, transactionIds := [] }

/-- A height-1 block on top of genesis, id `1`. -/
def blockA : Block :=
  { id := 1, parentId := 0, justify := ⟨0, 0⟩, height := 1, epoch := 1, proposedBy := 7
    shard := 0, commandCount := 1, isDummy := false, merkleRoot := 0, timestamp := 5
    baseLayerBlockHeight := 3, baseLayerBlockHash := 9, transactionIds := [] }

/-- A height-2 block on top of `blockA`, id `2`. -/
def blockB : Block :=
  { id := 2, parentId := 1, justify := ⟨1, 1⟩, height := 2, epoch := 1, proposedBy := 7
    shard := 0, commandCount := 1, isDummy := false, merkleRoot := 0, timestamp := 6
    baseLayerBlockHeight := 3, baseLayerBlockHash := 9, transactionIds := [] }

/-- The empty store. -/
def emptyStore : Store :=
  { blocks := [], processed := [], qcs := [], transactions := [], pool := []
    poolUpdates := [], foreignProposals := [], lockedBlock := none, leafBlock := none
    highQc := none }

/-- Store for the safety-failure scenario: chain `genesis ← A ← B` with the
locked block at `B`. -/
def storeNotSafe : Store :=
  { emptyStore with blocks := [genesisBlock, blockA, blockB], lockedBlock := some 2 }

/-- A candidate extending `blockA` (a fork sibling of the locked `blockB`):
justify is `blockA`'s QC, so validation reaches the safety check and fails
with `NotSafeBlock`. -/
def candNotSafe : Block :=
  { id := 5, parentId := 1, justify := ⟨1, 1⟩, height := 2, epoch := 1, proposedBy := 7
    shard := 0, commandCount := 1, isDummy := false, merkleRoot := 0, timestamp := 7
    baseLayerBlockHeight := 3, baseLayerBlockHash := 9, transactionIds := [] }

/-- Store holding only genesis, used for the unknown-justify scenario. -/
def storeOnlyGenesis : Store :=
  { emptyStore with blocks := [genesisBlock], lockedBlock := some 0 }

/-- A candidate whose justify certifies unknown block `7`: validation fails
with `JustifyBlockNotFound`. -/
def candUnknownJustify : Block :=
  { id := 9, parentId := 7, justify := ⟨7, 1⟩, height := 2, epoch := 1, proposedBy := 7
    shard := 0, commandCount := 1, isDummy := false, merkleRoot := 0, timestamp := 7
    baseLayerBlockHeight := 3, baseLayerBlockHash := 9, transactionIds := [] }

/-- Store for the dummy-synthesis scenario: `genesis ← A`. -/
def storeGap : Store :=
  { emptyStore with blocks := [genesisBlock, blockA], lockedBlock := some 0 }

/-- A height-3 candidate justified by `blockA` (height 1) whose parent is
the synthesised height-2 dummy block: a one-block leader-failure gap. -/
def candGap : Block :=
  { id := 20, parentId := dummyBlockId 1 2, justify := ⟨1, 1⟩, height := 3, epoch := 1
    proposedBy := 7, shard := 0, commandCount := 1, isDummy := false, merkleRoot := 4
    timestamp := 8, baseLayerBlockHeight := 3, baseLayerBlockHash := 9
    transactionIds := [] }

/-- The height-2 dummy block synthesised while validating `candGap`. -/
def dummyGap : Block :=
  Block.dummyBlock envA.network 1 (envA.leaderFor 2) 2 candGap.justify candGap.epoch
    envA.shard candGap.merkleRoot blockA.timestamp blockA.baseLayerBlockHeight
    blockA.baseLayerBlockHash

/-- A candidate at the same height as its justify block, extending it
directly: accepted although its height does not exceed the justify's. -/
def candEqualHeight : Block :=
  { id := 5, parentId := 1, justify := ⟨1, 1⟩, height := 1, epoch := 1, proposedBy := 7
    shard := 0, commandCount := 1, isDummy := false, merkleRoot := 0, timestamp := 7
    baseLayerBlockHeight := 3, baseLayerBlockHash := 9, transactionIds := [] }

/-- Store for the equal-height scenario: `genesis ← A`, locked at genesis. -/
def storeEqualHeight : Store :=
  { emptyStore with blocks := [genesisBlock, blockA], lockedBlock := some 0 }

/-- Two stores that differ at most in the `transaction_pool_state_updates`
table (the only table the abort loop writes). -/
def agreesExceptUpdates (s₁ s₂ : Store) : Prop :=
  s₁.blocks = s₂.blocks ∧ s₁.processed = s₂.processed ∧ s₁.qcs = s₂.qcs ∧
    s₁.transactions = s₂.transactions ∧ s₁.pool = s₂.pool ∧
    s₁.foreignProposals = s₂.foreignProposals ∧ s₁.lockedBlock = s₂.lockedBlock ∧
    s₁.leafBlock = s₂.leafBlock ∧ s₁.highQc = s₂.highQc

/-- Whether a validation result is an acceptance. -/
def validationAccepts (r : Except HotStuffError ValidBlock) : Bool :=
  match r with
  | Except.ok _ => true
  | Except.error _ => false

/-- The dummy-block count of a validation result, `none` on rejection. -/
def dummyCountOf (r : Except HotStuffError ValidBlock) : Option Nat :=
  match r with
  | Except.ok vb => some vb.dummyBlocks.length
  | Except.error _ => none

/-- A stored parent-link path from `cur` down to `start`: every listed id is
a stored block, consecutive entries follow parent links, `start` appears
only as the last entry.  This is the specification-side description of the
walk performed by the recursive CTE of `get_block_ids_between`. -/
inductive ParentPath (s : Store) (startB : BlockId) : BlockId → List BlockId → Prop where
  | base (b : Block) (hb : blocksGet? s startB = some b) : ParentPath s startB startB [startB]
  | step (cur : BlockId) (b : Block) (rest : List BlockId)
      (hne : cur ≠ startB) (hb : blocksGet? s cur = some b)
      (htail : ParentPath s startB b.parentId rest) :
      ParentPath s startB cur (cur :: rest)

/-- The transaction records of a list that the abort loop flags as
unresolved, read against the store `base`: finalized, and still in
effective pool stage `New` or `Prepared` at the candidate block. -/
def unresolvedIn (base : Store) (b : Block) (ts : List TransactionRecord) :
    List TransactionRecord :=
  ts.filter
    (fun t =>
      t.isFinalized &&
        match transactionPoolGet base b.id t.id with
        | some rec =>
          rec.stage == TransactionPoolStage.New || rec.stage == TransactionPoolStage.Prepared
        | none => false)

/-- The transactions of a foreign proposal that the abort loop flags as
unresolved, read against a fixed store: known, finalized, and still in
effective pool stage `New` or `Prepared` at the candidate block. -/
def unresolvedOf (s : Store) (b : Block) (p : ForeignProposal) : List TransactionRecord :=
  unresolvedIn s b (transactionsGetAny s p.transactions)

/-- The observable content of a pool-state-update row: transaction id,
local decision, and the block the update is keyed by (the auto-increment
row id is projected away). -/
def updProj (u : PoolStateUpdateRow) : Nat × Option Decision × BlockId :=
  (u.transactionId, u.localDecision, u.blockId)

/-- A finalized, executed transaction used in the foreign-proposal timeout
scenario. -/
def txX : TransactionRecord :=
  { id := 42, isExecuted := true, isFinalized := true, decision := Decision.Commit }

/-- The pool row of `txX`, stuck in stage `Prepared`. -/
def poolRowX : PoolRecordRow :=
  { transactionId := 42, stage := TransactionPoolStage.Prepared, isReady := true
    localDecision := none }

/-- A foreign proposal in state `Proposed` at height 0 referencing `txX`. -/
def fpX : ForeignProposal :=
  { bucket := 0, blockId := 3, transactions := [42], baseLayerBlockHeight := 0
    state := ForeignProposalState.Proposed, proposedHeight := 0 }

/-- Store for the foreign-proposal timeout scenario. -/
def storeTimeout : Store :=
  { emptyStore with
    blocks := [genesisBlock]
    transactions := [txX]
    pool := [poolRowX]
    foreignProposals := [fpX]
    lockedBlock := some 0 }

/-- A candidate block past the foreign-proposal timeout horizon. -/
def blockTimeout : Block :=
  { candNotSafe with id := 99, height := 1010 }

/-- A candidate block below the foreign-proposal timeout horizon. -/
def blockLowHeight : Block :=
  { candNotSafe with id := 98, height := 500 }

/-- First of two equal-height update rows for transaction `7` at block `0`. -/
def updRow1 : PoolStateUpdateRow :=
  { id := 1, blockId := 0, blockHeight := 5, transactionId := 7
    stage := TransactionPoolStage.Prepared, isReady := true, localDecision := none }

/-- Second update row, identical to `updRow1` except for a larger row id. -/
def updRow2 : PoolStateUpdateRow :=
  { updRow1 with id := 2, isReady := false }

/-- Store with two equal-height updates for the same transaction. -/
def storeTie : Store :=
  { emptyStore with blocks := [genesisBlock], poolUpdates := [updRow1, updRow2] }

/-- A ready pool row with transaction id `1`. -/
def poolRow1 : PoolRecordRow :=
  { transactionId := 1, stage := TransactionPoolStage.New, isReady := true
    localDecision := none }

/-- A ready pool row with transaction id `2`. -/
def poolRow2 : PoolRecordRow :=
  { transactionId := 2, stage := TransactionPoolStage.New, isReady := true
    localDecision := none }

/-- Store whose pool holds two ready records inserted out of id order. -/
def storeReadyPool : Store :=
  { emptyStore with
    blocks := [genesisBlock]
    pool := [poolRow2, poolRow1]
    lockedBlock := some 0
    leafBlock := some 0 }

/-- The update rows competing for transaction `tid` in
`create_transaction_atom_updates_query`: rows whose block is among the
state-changing blocks between the two given blocks, whose transaction is
among the requested ones, and whose transaction id is `tid` (one window
partition). -/
def updateCandidates (s : Store) (fromB toB : BlockId) (txIds : List Nat) (tid : Nat) :
    List PoolStateUpdateRow :=
  (s.poolUpdates.filter
    (fun u => (getBlockIdsThatChangeStateBetween s fromB toB).contains u.blockId &&
      txIds.contains u.transactionId)).filter (fun v => v.transactionId == tid)

instance : IsTotal PoolRecordRow (fun a b => a.transactionId ≤ b.transactionId) :=
  ⟨fun a b => Nat.le_total a.transactionId b.transactionId⟩

instance : IsTrans PoolRecordRow (fun a b => a.transactionId ≤ b.transactionId) :=
  ⟨fun _ _ _ => Nat.le_trans⟩

/-! ### Theorems -/

/-- C9: for every block already present in the store (with its epoch
active), handling a proposal for that same block returns success, leaves
the store unchanged, and does not call the pacemaker's `update_view`. -/
theorem c9_duplicate_delivery_idempotent (env : Env) (s : Store) (b : Block)
    (hepoch : env.epochIsActive b.epoch = true)
    (hex : blocksExists s b.id = true) :
    (handle env s b).result = Except.ok () ∧ (handle env s b).store = s ∧
      (handle env s b).pacemakerCall = none := by
  simp [handle, processBlock, hepoch, hex]

/-- Witness for C9 at a concrete input: genesis is stored and re-delivered. -/
theorem c9_duplicate_delivery_idempotent_witness :
    (handle envA storeOnlyGenesis genesisBlock).result = Except.ok () ∧
      (handle envA storeOnlyGenesis genesisBlock).store = storeOnlyGenesis ∧
      (handle envA storeOnlyGenesis genesisBlock).pacemakerCall = none :=
  c9_duplicate_delivery_idempotent envA storeOnlyGenesis genesisBlock (by decide) (by decide)

/-- C10: for a candidate of height below 1000 the foreign-proposal timeout
cutoff, computed with saturating subtraction, is height 0 (no underflow is
possible since `Nat` subtraction is truncated), reconciliation runs against
that zero cutoff, and a `Proposed` foreign proposal at proposed height 0 is
still considered. -/
theorem c10_timeout_cutoff_saturates (s : Store) (b : Block) (h : b.height < 1000) :
    b.height - FOREIGN_PROPOSAL_TIMEOUT = 0 ∧
    updateForeignProposalTransactions s b =
      (foreignProposalGetAllProposed s 0).foldlM (processProposal b) s ∧
    ∀ p ∈ s.foreignProposals, p.state = ForeignProposalState.Proposed →
      p.proposedHeight = 0 →
      p ∈ foreignProposalGetAllProposed s (b.height - FOREIGN_PROPOSAL_TIMEOUT) := by
  have h0 : b.height - FOREIGN_PROPOSAL_TIMEOUT = 0 := by
    unfold FOREIGN_PROPOSAL_TIMEOUT
    omega
  refine ⟨h0, ?_, ?_⟩
  · rw [updateForeignProposalTransactions, h0]
  · intro p hp hstate hheight
    rw [h0]
    simp [foreignProposalGetAllProposed, List.mem_filter, hp, hstate, hheight]

/-- Witness for C10 at a concrete input: a height-500 candidate against the
timeout store. -/
theorem c10_timeout_cutoff_saturates_witness :
    blockLowHeight.height - FOREIGN_PROPOSAL_TIMEOUT = 0 ∧
    updateForeignProposalTransactions storeTimeout blockLowHeight =
      (foreignProposalGetAllProposed storeTimeout 0).foldlM
        (processProposal blockLowHeight) storeTimeout ∧
    ∀ p ∈ storeTimeout.foreignProposals, p.state = ForeignProposalState.Proposed →
      p.proposedHeight = 0 →
      p ∈ foreignProposalGetAllProposed storeTimeout
        (blockLowHeight.height - FOREIGN_PROPOSAL_TIMEOUT) :=
  c10_timeout_cutoff_saturates storeTimeout blockLowHeight (by decide)

/-- C4 (amended): every block accepted by `validate_local_proposed_block`
has its justify's certified height at most its own height, or its parent
and justify are genesis.  (The code's monotonic-height rule rejects only
`candidate.height < justify.height`, so equality is accepted; the claimed
strict inequality fails, see the counterexample.) -/
theorem c4_justify_height_le (env : Env) (s : Store) (cand : Block) (vb : ValidBlock)
    (h : validateLocalProposedBlock env s cand = Except.ok vb) :
    cand.justify.blockHeight ≤ cand.height ∨
      (isGenesisId cand.parentId = true ∧ cand.justify.isGenesis = true) := by
  unfold validateLocalProposedBlock at h
  split at h
  · simp at h
  · split at h
    · simp at h
    · rename_i jb hjb
      split at h
      · simp at h
      · rename_i hheq
        split at h
        · rename_i hgen
          exact Or.inr (by simpa [Bool.and_eq_true] using hgen)
        · split at h
          · simp at h
          · rename_i hnlt
            have hle : cand.justify.blockHeight ≤ cand.height := by
              have : jb.height = cand.justify.blockHeight := by
                by_contra hc
                exact hheq hc
              omega
            exact Or.inl hle

/-- Counterexample for C4 as stated: a candidate at the same height as its
justify block is accepted although its justify's height is not strictly
below its own and it is not the genesis case. -/
theorem c4_strict_inequality_counterexample :
    validationAccepts (validateLocalProposedBlock envA storeEqualHeight candEqualHeight) = true ∧
    ¬(candEqualHeight.justify.blockHeight < candEqualHeight.height ∨
      (isGenesisId candEqualHeight.parentId = true ∧
        candEqualHeight.justify.isGenesis = true)) := by
  decide

/-- Witness for the amended C4 at a concrete accepted block. -/
theorem c4_justify_height_le_witness :
    candEqualHeight.justify.blockHeight ≤ candEqualHeight.height ∨
      (isGenesisId candEqualHeight.parentId = true ∧
        candEqualHeight.justify.isGenesis = true) :=
  c4_justify_height_le envA storeEqualHeight candEqualHeight
    (ValidBlock.new candEqualHeight) (by decide)

/-- Helper: when `validate_local_proposed_block` fails with a validation
error, `validate_block_header` propagates exactly `JustifyBlockNotFound`
and swallows every other validation error without touching the store. -/
theorem validateBlockHeader_of_validationError (env : Env) (s : Store) (b : Block)
    (e : ProposalValidationError)
    (hval : validateLocalProposedBlock env s b =
      Except.error (HotStuffError.proposalValidationError e)) :
    validateBlockHeader env s b =
      if e = ProposalValidationError.justifyBlockNotFound then
        Except.error (HotStuffError.proposalValidationError e)
      else Except.ok (none, s) := by
  rw [validateBlockHeader, hval]
  cases e <;> simp

/-- C1: when validation of a proposal fails with a `ProposalValidationError`
other than `JustifyBlockNotFound`, the handler returns success and leaves
the store unchanged (no block, pool or foreign-proposal write happens);
when it fails with `JustifyBlockNotFound`, that error is returned to the
caller. -/
theorem c1_validation_error_swallowed_except_jbnf (env : Env) (s : Store) (b : Block)
    (e : ProposalValidationError)
    (hepoch : env.epochIsActive b.epoch = true)
    (hex : blocksExists s b.id = false)
    (hval : validateLocalProposedBlock env s b =
      Except.error (HotStuffError.proposalValidationError e)) :
    (e ≠ ProposalValidationError.justifyBlockNotFound →
      (handle env s b).result = Except.ok () ∧ (handle env s b).store = s) ∧
    (e = ProposalValidationError.justifyBlockNotFound →
      (handle env s b).result =
        Except.error (HotStuffError.proposalValidationError
          ProposalValidationError.justifyBlockNotFound)) := by
  have hvbh := validateBlockHeader_of_validationError env s b e hval
  constructor
  · intro hne
    rw [if_neg hne] at hvbh
    simp [handle, processBlock, hepoch, hex, hvbh]
  · intro heq
    subst heq
    rw [if_pos rfl] at hvbh
    simp [handle, processBlock, hepoch, hex, hvbh]

/-- Witness for C1 at concrete inputs: a `NotSafeBlock` rejection is
swallowed with the store untouched, and an unknown-justify proposal
returns `JustifyBlockNotFound`. -/
theorem c1_validation_error_swallowed_except_jbnf_witness :
    ((ProposalValidationError.notSafeBlock ≠ ProposalValidationError.justifyBlockNotFound →
      (handle envA storeNotSafe candNotSafe).result = Except.ok () ∧
        (handle envA storeNotSafe candNotSafe).store = storeNotSafe) ∧
    (ProposalValidationError.notSafeBlock = ProposalValidationError.justifyBlockNotFound →
      (handle envA storeNotSafe candNotSafe).result =
        Except.error (HotStuffError.proposalValidationError
          ProposalValidationError.justifyBlockNotFound))) ∧
    ((ProposalValidationError.justifyBlockNotFound ≠
        ProposalValidationError.justifyBlockNotFound →
      (handle envA storeOnlyGenesis candUnknownJustify).result = Except.ok () ∧
        (handle envA storeOnlyGenesis candUnknownJustify).store = storeOnlyGenesis) ∧
    (ProposalValidationError.justifyBlockNotFound =
        ProposalValidationError.justifyBlockNotFound →
      (handle envA storeOnlyGenesis candUnknownJustify).result =
        Except.error (HotStuffError.proposalValidationError
          ProposalValidationError.justifyBlockNotFound))) :=
  ⟨c1_validation_error_swallowed_except_jbnf envA storeNotSafe candNotSafe
      ProposalValidationError.notSafeBlock (by decide) (by decide) (by decide),
    c1_validation_error_swallowed_except_jbnf envA storeOnlyGenesis candUnknownJustify
      ProposalValidationError.justifyBlockNotFound (by decide) (by decide) (by decide)⟩

/-- Counterexample for C2 as stated: a proposal failing validation with
`NotSafeBlock` does not invoke the `on_block_validation_failed` hook and
the handler returns success rather than the error. -/
theorem c2_hook_not_invoked_counterexample :
    validateLocalProposedBlock envA storeNotSafe candNotSafe =
      Except.error (HotStuffError.proposalValidationError
        ProposalValidationError.notSafeBlock) ∧
    (handle envA storeNotSafe candNotSafe).result = Except.ok () ∧
    (handle envA storeNotSafe candNotSafe).hookCalled = false := by
  decide

/-- C2 (amended): the handler invokes the `on_block_validation_failed` hook
and returns the error exactly for the validation errors that propagate out
of `process_block`, i.e. `JustifyBlockNotFound`; every other
`ProposalValidationError` is swallowed: the handler returns success and the
hook is not invoked. -/
theorem c2_hook_on_propagated_validation_error (env : Env) (s : Store) (b : Block)
    (e : ProposalValidationError)
    (hepoch : env.epochIsActive b.epoch = true)
    (hex : blocksExists s b.id = false)
    (hval : validateLocalProposedBlock env s b =
      Except.error (HotStuffError.proposalValidationError e)) :
    (e = ProposalValidationError.justifyBlockNotFound →
      (handle env s b).hookCalled = true ∧
        (handle env s b).result =
          Except.error (HotStuffError.proposalValidationError e)) ∧
    (e ≠ ProposalValidationError.justifyBlockNotFound →
      (handle env s b).hookCalled = false ∧
        (handle env s b).result = Except.ok ()) := by
  have hvbh := validateBlockHeader_of_validationError env s b e hval
  constructor
  · intro heq
    subst heq
    rw [if_pos rfl] at hvbh
    simp [handle, processBlock, hepoch, hex, hvbh]
  · intro hne
    rw [if_neg hne] at hvbh
    simp [handle, processBlock, hepoch, hex, hvbh]

/-- Witness for the amended C2: the hook fires (and the error is returned)
for a concrete unknown-justify proposal. -/
theorem c2_hook_on_propagated_validation_error_witness :
    (ProposalValidationError.justifyBlockNotFound =
        ProposalValidationError.justifyBlockNotFound →
      (handle envA storeOnlyGenesis candUnknownJustify).hookCalled = true ∧
        (handle envA storeOnlyGenesis candUnknownJustify).result =
          Except.error (HotStuffError.proposalValidationError
            ProposalValidationError.justifyBlockNotFound)) ∧
    (ProposalValidationError.justifyBlockNotFound ≠
        ProposalValidationError.justifyBlockNotFound →
      (handle envA storeOnlyGenesis candUnknownJustify).hookCalled = false ∧
        (handle envA storeOnlyGenesis candUnknownJustify).result = Except.ok ()) :=
  c2_hook_on_propagated_validation_error envA storeOnlyGenesis candUnknownJustify
    ProposalValidationError.justifyBlockNotFound (by decide) (by decide) (by decide)

/-- Helper: a stored block found by id carries that id. -/
theorem blocksGet?_id (s : Store) (id : BlockId) (b : Block)
    (h : blocksGet? s id = some b) : b.id = id := by
  have := List.find?_some h
  simpa using this

/-- Helper: the recursive CTE emits at most one row per unit of fuel. -/
theorem blockRowsBetweenAux_length (s : Store) (startB : BlockId) :
    ∀ (fuel : Nat) (cur : BlockId), (blockRowsBetweenAux s startB fuel cur).length ≤ fuel := by
  intro fuel
  induction fuel with
  | zero => intro cur; simp [blockRowsBetweenAux]
  | succ n ih =>
    intro cur
    rw [blockRowsBetweenAux]
    cases h : blocksGet? s cur with
    | none => simp
    | some b =>
      by_cases hc : (cur == startB) = true
      · simp [hc]
      · simp only [hc, if_false, List.length_cons]
        exact Nat.succ_le_succ (ih b.parentId)

/-- Helper: when a parent-link path from `cur` to `start` exists and fits in
the fuel, the CTE walk emits exactly that path. -/
theorem blockRowsBetweenAux_of_parentPath (s : Store) (startB : BlockId)
    (cur : BlockId) (l : List BlockId) (hpath : ParentPath s startB cur l) :
    ∀ fuel, l.length ≤ fuel →
      (blockRowsBetweenAux s startB fuel cur).map (fun b => b.id) = l := by
  induction hpath with
  | base b hb =>
    intro fuel hlen
    cases fuel with
    | zero => simp at hlen
    | succ n =>
      rw [blockRowsBetweenAux, hb]
      simp [blocksGet?_id s startB b hb]
  | step cur b rest hne hb _ ih =>
    intro fuel hlen
    cases fuel with
    | zero => simp at hlen
    | succ n =>
      have hcur : (cur == startB) = false := by simpa using hne
      rw [blockRowsBetweenAux, hb]
      simp only [hcur, Bool.false_eq_true, if_false, List.map_cons]
      have hrest : rest.length ≤ n := by
        simp only [List.length_cons] at hlen
        omega
      rw [blocksGet?_id s cur b hb, ih n hrest]

/-- C8: `block_ids_between(start, end)` walks parent links from `end` down
to and including `start` (when such a stored path of at most 1000 blocks
exists, the result is exactly that path, ordered from `end` to `start`),
and on every store and every pair of ids — including a chain that reaches
the self-parenting genesis without passing `start` — the `LIMIT 1000` of
the recursive CTE bounds the result to at most 1000 ids, which is what
makes the walk terminate. -/
theorem c8_block_ids_between_spec (s : Store) (startB endB : BlockId) (l : List BlockId)
    (hpath : ParentPath s startB endB l) (hlen : l.length ≤ 1000) :
    getBlockIdsBetween s startB endB = l ∧
      ∀ (s' : Store) (a b : BlockId), (getBlockIdsBetween s' a b).length ≤ 1000 := by
  constructor
  · exact blockRowsBetweenAux_of_parentPath s startB endB l hpath 1000 hlen
  · intro s' a b
    have := blockRowsBetweenAux_length s' a 1000 b
    simpa [getBlockIdsBetween] using this

/-- Witness for C8 at a concrete chain `genesis ← A`. -/
theorem c8_block_ids_between_spec_witness :
    getBlockIdsBetween storeGap 0 1 = [1, 0] ∧
      ∀ (s' : Store) (a b : BlockId), (getBlockIdsBetween s' a b).length ≤ 1000 :=
  c8_block_ids_between_spec storeGap 0 1 [1, 0]
    (ParentPath.step 1 blockA [0] (by decide) (by decide)
      (ParentPath.base genesisBlock (by decide)))
    (by decide)

/-- Helper: invariant of the dummy-synthesis loop — on success the result
extends the accumulator, starts where it starts, ends with the block whose
id is the candidate's parent, and grows by one block per height step. -/
theorem synthLoop_spec (env : Env) (cand : Block) (ts blh bh : Nat) :
    ∀ (fuel : Nat) (acc : List Block) (last : Block) (out : List Block),
      acc ≠ [] → acc.getLast? = some last →
      synthLoop env cand ts blh bh fuel acc last = Except.ok out →
      out.head? = acc.head? ∧
        ∃ lastOut, out.getLast? = some lastOut ∧ lastOut.id = cand.parentId ∧
          last.height ≤ lastOut.height ∧
          out.length = acc.length + (lastOut.height - last.height) := by
  intro fuel
  induction fuel with
  | zero =>
    intro acc last out _ _ hrun
    rw [synthLoop] at hrun
    exact absurd hrun (by simp)
  | succ n ih =>
    intro acc last out hne hlast hrun
    rw [synthLoop] at hrun
    by_cases hid : (last.id == cand.parentId) = true
    · rw [if_pos hid] at hrun
      have hout : out = acc := by
        simpa using hrun.symm
      subst hout
      refine ⟨rfl, last, hlast, by simpa using hid, Nat.le_refl _, by omega⟩
    · rw [if_neg (by simpa using hid)] at hrun
      by_cases hht : cand.height < last.height
      · rw [if_pos hht] at hrun
        exact absurd hrun (by simp)
      · rw [if_neg hht] at hrun
        set d := Block.dummyBlock env.network last.id (env.leaderFor (last.height + 1))
          (last.height + 1) cand.justify cand.epoch env.shard cand.merkleRoot ts blh bh
          with hd
        have hacc' : (acc ++ [d]) ≠ [] := by simp
        have hlast' : (acc ++ [d]).getLast? = some d := by
          simp [List.getLast?_concat]
        obtain ⟨hhead, lastOut, hgl, hid', hle, hlen⟩ := ih (acc ++ [d]) d out hacc' hlast' hrun
        have hdh : d.height = last.height + 1 := rfl
        refine ⟨?_, lastOut, hgl, hid', by omega, ?_⟩
        · rw [hhead]
          cases acc with
          | nil => exact absurd rfl hne
          | cons a as => simp
        · simp only [List.length_append, List.length_cons, List.length_nil] at hlen
          omega

/-- C3 (amended): for every block accepted by
`validate_local_proposed_block`, if `justify.block_id` equals the
candidate's parent the returned `ValidBlock` carries zero dummy blocks;
otherwise the carried list starts with the justify block itself, ends with
the block whose id is the candidate's parent, and has length
`last.height - justify_block.height + 1` — one more than the number of
synthesised dummies, because the justify block is pushed into the list
first.  (The claimed count `candidate.height - justify.height - 1` fails,
see the counterexample.) -/
theorem c3_dummy_blocks_shape (env : Env) (s : Store) (cand : Block) (vb : ValidBlock)
    (h : validateLocalProposedBlock env s cand = Except.ok vb) :
    (cand.justify.blockId = cand.parentId → vb.dummyBlocks = []) ∧
    (cand.justify.blockId ≠ cand.parentId →
      ∃ jb, blocksGet? s cand.justify.blockId = some jb ∧
        vb.dummyBlocks.head? = some jb ∧
        ∃ lastD, vb.dummyBlocks.getLast? = some lastD ∧ lastD.id = cand.parentId ∧
          vb.dummyBlocks.length = lastD.height - jb.height + 1) := by
  unfold validateLocalProposedBlock at h
  split at h
  · simp at h
  split at h
  · simp at h
  rename_i jb hjb
  have hjbid : jb.id = cand.justify.blockId := blocksGet?_id s cand.justify.blockId jb hjb
  split at h
  · simp at h
  split at h
  · -- genesis short-circuit: justify.block_id = 0 = parent, zero dummies
    rename_i hgen
    have hvb : vb = ValidBlock.new cand := by simpa using h.symm
    rw [Bool.and_eq_true] at hgen
    have hpar : cand.parentId = genesisId := by
      simpa [isGenesisId] using hgen.1
    have hjg : cand.justify.blockId = genesisId := by
      simpa [QuorumCertificate.isGenesis, isGenesisId] using hgen.2
    refine ⟨fun _ => by simp [hvb, ValidBlock.new], fun hne => ?_⟩
    exact absurd (hjg.trans hpar.symm) hne
  split at h
  · simp at h
  split at h
  · -- dummy-synthesis branch
    rename_i hneid
    split at h
    · rename_i dummies hrun
      have hvb : vb = ValidBlock.withDummyBlocks cand dummies := by simpa using h.symm
      have hspec := synthLoop_spec env cand jb.timestamp jb.baseLayerBlockHeight
        jb.baseLayerBlockHash (cand.height + 2) [jb] jb dummies (by simp) (by simp) hrun
      obtain ⟨hhead, lastD, hgl, hid, _, hlen⟩ := hspec
      refine ⟨fun heq => absurd ?_ hneid, fun _ => ?_⟩
      · rw [hjbid, heq]
      · refine ⟨jb, hjb, ?_, lastD, ?_, hid, ?_⟩
        · simpa [hvb, ValidBlock.withDummyBlocks] using hhead
        · simpa [hvb, ValidBlock.withDummyBlocks] using hgl
        · have : dummies.length = 1 + (lastD.height - jb.height) := by simpa using hlen
          simp [hvb, ValidBlock.withDummyBlocks]
          omega
    · simp at h
  · -- direct-extension branch: justify block is the parent, zero dummies
    rename_i hneid
    have heqid : jb.id = cand.parentId := by
      by_contra hc
      exact hneid hc
    split at h
    · simp at h
    · rename_i hsafe
      have hvb : vb = ValidBlock.new cand := by simpa using h.symm
      refine ⟨fun _ => by simp [hvb, ValidBlock.new], fun hne => ?_⟩
      exact absurd (hjbid.symm.trans heqid) hne
    · simp at h

/-- Counterexample for C3 as stated: a one-gap candidate at height 3 over a
height-1 justify is accepted carrying 2 blocks in its dummy list (the
justify block plus one synthesised dummy), while the claimed count
`candidate.height - justify.height - 1` is 1. -/
theorem c3_dummy_count_counterexample :
    dummyCountOf (validateLocalProposedBlock envA storeGap candGap) = some 2 ∧
    candGap.justify.blockId ≠ candGap.parentId ∧
    candGap.height - candGap.justify.blockHeight - 1 = 1 := by
  decide

/-- Witness for the amended C3 at the concrete one-gap candidate. -/
theorem c3_dummy_blocks_shape_witness :
    (candGap.justify.blockId = candGap.parentId →
      (ValidBlock.withDummyBlocks candGap [blockA, dummyGap]).dummyBlocks = []) ∧
    (candGap.justify.blockId ≠ candGap.parentId →
      ∃ jb, blocksGet? storeGap candGap.justify.blockId = some jb ∧
        (ValidBlock.withDummyBlocks candGap [blockA, dummyGap]).dummyBlocks.head? = some jb ∧
        ∃ lastD,
          (ValidBlock.withDummyBlocks candGap [blockA, dummyGap]).dummyBlocks.getLast? =
            some lastD ∧
          lastD.id = candGap.parentId ∧
          (ValidBlock.withDummyBlocks candGap [blockA, dummyGap]).dummyBlocks.length =
            lastD.height - jb.height + 1) :=
  c3_dummy_blocks_shape envA storeGap candGap
    (ValidBlock.withDummyBlocks candGap [blockA, dummyGap]) (by decide)

/-- Helper: overlaying a state update never changes a record's
transaction id. -/
theorem tryConvert_transactionId (rec : PoolRecordRow) (u : Option PoolStateUpdateRow) :
    (rec.tryConvert u).transactionId = rec.transactionId := by
  cases u <;> rfl

/-- C7: with `LockedBlock` and `LeafBlock` set,
`transaction_pool_get_many_ready(max)` succeeds and returns at most `max`
records, in ascending transaction-id order, every one of which is the
overlay of a stored pool row with its latest state update between the
locked and the leaf block and has effective `is_ready = true`. -/
theorem c7_get_many_ready_spec (s : Store) (maxTxs : Nat) (lb lf : BlockId)
    (hlb : s.lockedBlock = some lb) (hlf : s.leafBlock = some lf) :
    ∃ out, transactionPoolGetManyReady s maxTxs = some out ∧
      out.length ≤ maxTxs ∧
      List.Sorted (fun a b => a.transactionId ≤ b.transactionId) out ∧
      ∀ r ∈ out, r.isReady = true ∧
        ∃ base ∈ s.pool,
          r = base.tryConvert
            ((getTransactionAtomStateUpdatesBetweenBlocks s lb lf
              ((s.pool.insertionSort (fun a b => a.transactionId ≤ b.transactionId)).map
                (fun p => p.transactionId))).lookup base.transactionId) := by
  set sorted := s.pool.insertionSort (fun a b => a.transactionId ≤ b.transactionId) with hsorted
  by_cases hemp : sorted.isEmpty
  · refine ⟨[], ?_, by simp, by simp [List.Sorted], by simp⟩
    rw [transactionPoolGetManyReady, ← hsorted, if_pos hemp]
  · set conv := fun rec : PoolRecordRow =>
      rec.tryConvert
        ((getTransactionAtomStateUpdatesBetweenBlocks s lb lf
          (sorted.map (fun p => p.transactionId))).lookup rec.transactionId) with hconv
    refine ⟨((sorted.map conv).filter (fun rec => rec.isReady)).take maxTxs, ?_, ?_, ?_, ?_⟩
    · rw [transactionPoolGetManyReady, ← hsorted, if_neg hemp, hlb, hlf]
      rfl
    · rw [List.length_take]
      exact Nat.min_le_left _ _
    · have hs : List.Sorted (fun a b => a.transactionId ≤ b.transactionId) sorted :=
        List.sorted_insertionSort _ s.pool
    -- the overlay preserves transaction ids, so sortedness transfers to the result
      have hmap : List.Sorted (fun a b => a.transactionId ≤ b.transactionId)
          (sorted.map conv) := by
        rw [List.Sorted, List.pairwise_map]
        refine hs.imp ?_
        intro a b hab
        simpa [hconv, tryConvert_transactionId] using hab
      exact List.Pairwise.sublist ((List.take_sublist _ _).trans (List.filter_sublist _)) hmap
    · intro r hr
      have hr1 : r ∈ (sorted.map conv).filter (fun rec => rec.isReady) :=
        List.take_subset _ _ hr
      rw [List.mem_filter] at hr1
      obtain ⟨hrm, hready⟩ := hr1
      refine ⟨hready, ?_⟩
      rw [List.mem_map] at hrm
      obtain ⟨base, hbase, hb⟩ := hrm
      exact ⟨base, (List.perm_insertionSort _ s.pool).mem_iff.mp hbase, hb.symm⟩

/-- Witness for C7 at a concrete store whose pool holds two ready rows
inserted out of id order. -/
theorem c7_get_many_ready_spec_witness :
    ∃ out, transactionPoolGetManyReady storeReadyPool 5 = some out ∧
      out.length ≤ 5 ∧
      List.Sorted (fun a b => a.transactionId ≤ b.transactionId) out ∧
      ∀ r ∈ out, r.isReady = true ∧
        ∃ base ∈ storeReadyPool.pool,
          r = base.tryConvert
            ((getTransactionAtomStateUpdatesBetweenBlocks storeReadyPool 0 0
              ((storeReadyPool.pool.insertionSort
                (fun a b => a.transactionId ≤ b.transactionId)).map
                  (fun p => p.transactionId))).lookup base.transactionId) :=
  c7_get_many_ready_spec storeReadyPool 5 0 0 rfl rfl

/-- Helper: reducing the rank scan step on a non-empty accumulator. -/
theorem rank1Step_some (v u : PoolStateUpdateRow) :
    rank1Step (some v) u = if v.blockHeight < u.blockHeight then some u else some v := rfl

/-- Helper: in a list with strictly increasing row ids, members are
determined by their row id. -/
theorem pairwise_id_mem_eq (l : List PoolStateUpdateRow)
    (hl : l.Pairwise (fun a b => a.id < b.id)) (u v : PoolStateUpdateRow)
    (hu : u ∈ l) (hv : v ∈ l) (hid : u.id = v.id) : u = v := by
  induction l with
  | nil => simp at hu
  | cons a t ih =>
    obtain ⟨hat, hpt⟩ := List.pairwise_cons.mp hl
    rcases List.mem_cons.mp hu with hu' | hu' <;>
      rcases List.mem_cons.mp hv with hv' | hv'
    · rw [hu', hv']
    · subst hu'
      exact absurd hid (Nat.ne_of_lt (hat v hv'))
    · subst hv'
      exact absurd hid.symm (Nat.ne_of_lt (hat u hu'))
    · exact ih hpt hu' hv'

/-- Helper: invariant of the rank scan — starting from a candidate whose
row id precedes all remaining rows, the scan returns the row of greatest
block height, earliest (least row id) among ties. -/
theorem rank1_go (l : List PoolStateUpdateRow) :
    ∀ a : PoolStateUpdateRow, (∀ b ∈ l, a.id < b.id) →
      l.Pairwise (fun x y => x.id < y.id) →
      ∃ r, l.foldl rank1Step (some a) = some r ∧ r ∈ a :: l ∧
        (∀ v ∈ a :: l, v.blockHeight ≤ r.blockHeight) ∧
        (∀ v ∈ a :: l, v.blockHeight = r.blockHeight → r.id ≤ v.id) := by
  induction l with
  | nil =>
    intro a _ _
    exact ⟨a, rfl, by simp, by simp, by simp⟩
  | cons b t ih =>
    intro a ha hp
    have hab : a.id < b.id := ha b (List.mem_cons_self b t)
    obtain ⟨hbt, hpt⟩ := List.pairwise_cons.mp hp
    simp only [List.foldl_cons, rank1Step_some]
    by_cases hh : a.blockHeight < b.blockHeight
    · rw [if_pos hh]
      obtain ⟨r, hrun, hmem, hmax, hmin⟩ := ih b hbt hpt
      refine ⟨r, hrun, ?_, ?_, ?_⟩
      · exact List.mem_cons.mpr (Or.inr hmem)
      · intro v hv
        rcases List.mem_cons.mp hv with hv' | hv'
        · subst hv'
          exact Nat.le_trans (Nat.le_of_lt hh) (hmax b (List.mem_cons_self b t))
        · exact hmax v hv'
      · intro v hv hvh
        rcases List.mem_cons.mp hv with hv' | hv'
        · subst hv'
          have : v.blockHeight < r.blockHeight :=
            Nat.lt_of_lt_of_le hh (hmax b (List.mem_cons_self b t))
          omega
        · exact hmin v hv' hvh
    · rw [if_neg hh]
      have hat : ∀ c ∈ t, a.id < c.id := fun c hc => ha c (List.mem_cons.mpr (Or.inr hc))
      obtain ⟨r, hrun, hmem, hmax, hmin⟩ := ih a hat hpt
      refine ⟨r, hrun, ?_, ?_, ?_⟩
      · rcases List.mem_cons.mp hmem with hm | hm
        · exact List.mem_cons.mpr (Or.inl hm)
        · exact List.mem_cons.mpr (Or.inr (List.mem_cons.mpr (Or.inr hm)))
      · intro v hv
        rcases List.mem_cons.mp hv with hv' | hv'
        · subst hv'
          exact hmax v (List.mem_cons_self v t)
        · rcases List.mem_cons.mp hv' with hv'' | hv''
          · subst hv''
            exact Nat.le_trans (Nat.le_of_not_lt hh) (hmax a (List.mem_cons_self a t))
          · exact hmax v (List.mem_cons.mpr (Or.inr hv''))
      · intro v hv hvh
        rcases List.mem_cons.mp hv with hv' | hv'
        · subst hv'
          exact hmin v (List.mem_cons_self v t) hvh
        · rcases List.mem_cons.mp hv' with hv'' | hv''
          · subst hv''
            have hba : v.blockHeight ≤ a.blockHeight := Nat.le_of_not_lt hh
            have har : a.blockHeight ≤ r.blockHeight := hmax a (List.mem_cons_self a t)
            have hra : r.id ≤ a.id := hmin a (List.mem_cons_self a t) (by omega)
            omega
          · exact hmin v (List.mem_cons.mpr (Or.inr hv'')) hvh

/-- Helper: characterisation of the rank-1 row of a partition whose rows
have strictly increasing row ids — it is exactly the row of greatest block
height with the least row id among ties. -/
theorem rank1?_eq_some_iff (l : List PoolStateUpdateRow)
    (hl : l.Pairwise (fun a b => a.id < b.id)) (u : PoolStateUpdateRow) :
    rank1? l = some u ↔
      u ∈ l ∧ (∀ v ∈ l, v.blockHeight ≤ u.blockHeight) ∧
        (∀ v ∈ l, v.blockHeight = u.blockHeight → u.id ≤ v.id) := by
  cases l with
  | nil => simp [rank1?]
  | cons a t =>
    obtain ⟨hat, hpt⟩ := List.pairwise_cons.mp hl
    obtain ⟨r, hrun, hmem, hmax, hmin⟩ := rank1_go t a hat hpt
    have hrank : rank1? (a :: t) = some r := by
      rw [rank1?, List.foldl_cons]
      exact hrun
    rw [hrank]
    constructor
    · intro h
      have : r = u := by simpa using h
      subst this
      exact ⟨hmem, hmax, hmin⟩
    · intro ⟨humem, humax, humin⟩
      have hhe : u.blockHeight = r.blockHeight :=
        Nat.le_antisymm (hmax u humem) (humax r hmem)
      have hide : u.id = r.id :=
        Nat.le_antisymm (humin r hmem hhe.symm) (hmin u humem hhe)
      rw [pairwise_id_mem_eq (a :: t) hl u r humem hmem hide]

/-- C6: for every pair of blocks and every transaction-id set, the
state-update view keys each returned update by its transaction id and, for
each transaction id, returns exactly the update of greatest `block_height`
among the updates of that transaction sitting on state-changing blocks
between the two given blocks, with ties at equal `block_height` broken by
row id (the earliest row wins, matching the scan order of the window
function).  The hypothesis states that the updates table is in ascending
row-id order, as a physical table scan delivers it. -/
theorem c6_latest_update_per_transaction (s : Store) (fromB toB : BlockId)
    (txIds : List Nat) (hids : s.poolUpdates.Pairwise (fun a b => a.id < b.id))
    (tid : Nat) (u : PoolStateUpdateRow) :
    (tid, u) ∈ getTransactionAtomStateUpdatesBetweenBlocks s fromB toB txIds ↔
      u.transactionId = tid ∧ u ∈ updateCandidates s fromB toB txIds tid ∧
        (∀ v ∈ updateCandidates s fromB toB txIds tid, v.blockHeight ≤ u.blockHeight) ∧
        (∀ v ∈ updateCandidates s fromB toB txIds tid,
          v.blockHeight = u.blockHeight → u.id ≤ v.id) := by
  have hcand_sub : ∀ t' : Nat, (updateCandidates s fromB toB txIds t').Pairwise
      (fun a b => a.id < b.id) := by
    intro t'
    exact List.Pairwise.sublist
      ((List.filter_sublist _).trans (List.filter_sublist _)) hids
  rw [getTransactionAtomStateUpdatesBetweenBlocks]
  by_cases h1 : txIds.isEmpty
  · rw [if_pos h1]
    have hempty : updateCandidates s fromB toB txIds tid = [] := by
      have : txIds = [] := List.isEmpty_iff.mp h1
      subst this
      simp [updateCandidates]
    simp [hempty]
  · rw [if_neg h1]
    simp only []
    by_cases h2 : (getBlockIdsThatChangeStateBetween s fromB toB).isEmpty
    · rw [if_pos h2]
      have hempty : updateCandidates s fromB toB txIds tid = [] := by
        have : getBlockIdsThatChangeStateBetween s fromB toB = [] :=
          List.isEmpty_iff.mp h2
        simp [updateCandidates, this]
      simp [hempty]
    · rw [if_neg h2]
      rw [createTransactionAtomUpdatesQuery]
      simp only [List.mem_map, List.mem_filter, decide_eq_true_eq]
      constructor
      · intro h
        obtain ⟨w, ⟨⟨hwrows, hwrank⟩, hweq⟩⟩ := h
        rw [Prod.mk.injEq] at hweq
        obtain ⟨hwt, hwu⟩ := hweq
        subst hwt
        rw [← hwu]
        obtain ⟨humem, humax, humin⟩ :=
          (rank1?_eq_some_iff (updateCandidates s fromB toB txIds w.transactionId)
            (hcand_sub w.transactionId) w).mp hwrank
        exact ⟨rfl, humem, humax, humin⟩
      · intro h
        obtain ⟨htid, humem, humax, humin⟩ := h
        subst htid
        refine ⟨u, ⟨⟨⟨?_, ?_⟩, ?_⟩, rfl⟩⟩
        · exact (List.mem_filter.mp (List.mem_filter.mp humem).1).1
        · exact (List.mem_filter.mp (List.mem_filter.mp humem).1).2
        · exact (rank1?_eq_some_iff (updateCandidates s fromB toB txIds u.transactionId)
            (hcand_sub u.transactionId) u).mpr ⟨humem, humax, humin⟩

/-- Witness for C6 at a concrete store holding two equal-height updates for
transaction 7: the earlier row (row id 1) is the one returned. -/
theorem c6_latest_update_per_transaction_witness :
    (7, updRow1) ∈ getTransactionAtomStateUpdatesBetweenBlocks storeTie 0 0 [7] :=
  (c6_latest_update_per_transaction storeTie 0 0 [7] (by decide) 7 updRow1).mpr (by decide)

/-- Helper: block lookup depends only on the blocks table. -/
theorem blocksGet?_congr (s₁ s₂ : Store) (h : s₁.blocks = s₂.blocks) (id : BlockId) :
    blocksGet? s₁ id = blocksGet? s₂ id := by
  rw [blocksGet?, blocksGet?, h]

/-- Helper: the CTE walk depends only on the blocks table. -/
theorem blockRowsBetweenAux_congr (s₁ s₂ : Store) (h : s₁.blocks = s₂.blocks)
    (st : BlockId) :
    ∀ (fuel : Nat) (cur : BlockId),
      blockRowsBetweenAux s₁ st fuel cur = blockRowsBetweenAux s₂ st fuel cur := by
  intro fuel
  induction fuel with
  | zero => intro cur; rfl
  | succ n ih =>
    intro cur
    rw [blockRowsBetweenAux, blockRowsBetweenAux, blocksGet?_congr s₁ s₂ h cur]
    cases blocksGet? s₂ cur with
    | none => rfl
    | some b =>
      by_cases hc : (cur == st) = true
      · simp [hc]
      · simp [hc, ih]

/-- Helper: the state-changing-blocks walk depends only on the blocks table. -/
theorem getBlockIdsThatChangeStateBetween_congr (s₁ s₂ : Store)
    (h : s₁.blocks = s₂.blocks) (fromB toB : BlockId) :
    getBlockIdsThatChangeStateBetween s₁ fromB toB =
      getBlockIdsThatChangeStateBetween s₂ fromB toB := by
  rw [getBlockIdsThatChangeStateBetween, getBlockIdsThatChangeStateBetween,
    blockRowsBetweenAux_congr s₁ s₂ h fromB 1000 toB]

/-- Helper: unfolding `transactionPoolGet` when the locked block is set. -/
theorem transactionPoolGet_eq_forBlocks (s : Store) (locked leaf : BlockId) (tid : Nat)
    (hl : s.lockedBlock = some locked) :
    transactionPoolGet s leaf tid = transactionPoolGetForBlocks s locked leaf tid := by
  rw [transactionPoolGet, hl]

/-- Helper: `transactionPoolGet` fails when no locked block is set. -/
theorem transactionPoolGet_eq_none (s : Store) (leaf : BlockId) (tid : Nat)
    (hl : s.lockedBlock = none) : transactionPoolGet s leaf tid = none := by
  rw [transactionPoolGet, hl]

/-- Helper: the per-blocks pool lookup depends only on the pool table and
the update view. -/
theorem transactionPoolGetForBlocks_congr (s₁ s₂ : Store) (fromB toB : BlockId)
    (tid : Nat) (hpool : s₁.pool = s₂.pool)
    (hupd : getTransactionAtomStateUpdatesBetweenBlocks s₁ fromB toB [tid] =
      getTransactionAtomStateUpdatesBetweenBlocks s₂ fromB toB [tid]) :
    transactionPoolGetForBlocks s₁ fromB toB tid =
      transactionPoolGetForBlocks s₂ fromB toB tid := by
  unfold transactionPoolGetForBlocks
  rw [hupd, hpool]

/-- Helper: the effective pool lookup depends only on the locked pointer,
the pool table and the update view. -/
theorem transactionPoolGet_congr (s₁ s₂ : Store) (leaf : BlockId) (tid : Nat)
    (hlk : s₁.lockedBlock = s₂.lockedBlock)
    (h : ∀ lb, transactionPoolGetForBlocks s₁ lb leaf tid =
      transactionPoolGetForBlocks s₂ lb leaf tid) :
    transactionPoolGet s₁ leaf tid = transactionPoolGet s₂ leaf tid := by
  unfold transactionPoolGet
  rw [hlk]
  cases s₂.lockedBlock with
  | none => rfl
  | some lb => exact h lb

/-- Helper: appending a state update for a different transaction does not
change the single-transaction update view. -/
theorem getUpdates_append_ne (s : Store) (u : PoolStateUpdateRow) (fromB toB : BlockId)
    (tid : Nat) (hne : u.transactionId ≠ tid) :
    getTransactionAtomStateUpdatesBetweenBlocks
        { s with poolUpdates := s.poolUpdates ++ [u] } fromB toB [tid] =
      getTransactionAtomStateUpdatesBetweenBlocks s fromB toB [tid] := by
  have hap : getBlockIdsThatChangeStateBetween
      { s with poolUpdates := s.poolUpdates ++ [u] } fromB toB =
      getBlockIdsThatChangeStateBetween s fromB toB :=
    getBlockIdsThatChangeStateBetween_congr
      { s with poolUpdates := s.poolUpdates ++ [u] } s rfl fromB toB
  simp only [getTransactionAtomStateUpdatesBetweenBlocks]
  simp only [hap]
  by_cases h2 : (getBlockIdsThatChangeStateBetween s fromB toB).isEmpty
  · simp [h2]
  · simp only [h2, if_false, Bool.false_eq_true]
    simp only [createTransactionAtomUpdatesQuery]
    have hrows : (({ s with poolUpdates := s.poolUpdates ++ [u] } : Store).poolUpdates).filter
        (fun v => (getBlockIdsThatChangeStateBetween s fromB toB).contains v.blockId &&
          [tid].contains v.transactionId) =
        s.poolUpdates.filter
          (fun v => (getBlockIdsThatChangeStateBetween s fromB toB).contains v.blockId &&
            [tid].contains v.transactionId) := by
      show (s.poolUpdates ++ [u]).filter _ = _
      rw [List.filter_append]
      have hu : ([tid].contains u.transactionId) = false := by simp [hne]
      simp [hu, hne]
    simp only [hrows]

/-- Helper: appending a state update for a different transaction does not
change another transaction's effective pool record. -/
theorem transactionPoolGet_append_ne (s : Store) (u : PoolStateUpdateRow)
    (leaf : BlockId) (tid : Nat) (hne : u.transactionId ≠ tid) :
    transactionPoolGet { s with poolUpdates := s.poolUpdates ++ [u] } leaf tid =
      transactionPoolGet s leaf tid := by
  refine transactionPoolGet_congr _ s leaf tid rfl ?_
  intro lb
  exact transactionPoolGetForBlocks_congr _ s lb leaf tid rfl
    (getUpdates_append_ne s u lb leaf tid hne)

/-- Helper: the effective pool record returned for a transaction id carries
that transaction id. -/
theorem transactionPoolGet_transactionId (s : Store) (leaf : BlockId) (tid : Nat)
    (rec : PoolRecordRow) (h : transactionPoolGet s leaf tid = some rec) :
    rec.transactionId = tid := by
  cases hl : s.lockedBlock with
  | none =>
    rw [transactionPoolGet_eq_none s leaf tid hl] at h
    simp at h
  | some lb =>
    rw [transactionPoolGet_eq_forBlocks s lb leaf tid hl] at h
    rw [transactionPoolGetForBlocks] at h
    cases hf : s.pool.find? (fun r => r.transactionId == tid) with
    | none => rw [hf] at h; simp at h
    | some base =>
      rw [hf, Option.map_some'] at h
      have hbase : base.transactionId = tid := by
        simpa using List.find?_some hf
      have hrec : base.tryConvert
          (List.lookup tid (getTransactionAtomStateUpdatesBetweenBlocks s lb leaf [tid])) =
          rec := by
        simpa using h
      rw [← hrec, tryConvert_transactionId]
      exact hbase

/-- Helper: store agreement up to updates is reflexive. -/
theorem agreesExceptUpdates_refl (s : Store) : agreesExceptUpdates s s :=
  ⟨rfl, rfl, rfl, rfl, rfl, rfl, rfl, rfl, rfl⟩

/-- Helper: store agreement up to updates is transitive. -/
theorem agreesExceptUpdates_trans (s₁ s₂ s₃ : Store)
    (h₁ : agreesExceptUpdates s₁ s₂) (h₂ : agreesExceptUpdates s₂ s₃) :
    agreesExceptUpdates s₁ s₃ := by
  obtain ⟨a1, a2, a3, a4, a5, a6, a7, a8, a9⟩ := h₁
  obtain ⟨b1, b2, b3, b4, b5, b6, b7, b8, b9⟩ := h₂
  exact ⟨a1.trans b1, a2.trans b2, a3.trans b3, a4.trans b4, a5.trans b5,
    a6.trans b6, a7.trans b7, a8.trans b8, a9.trans b9⟩

/-- Helper: `update_local_decision` only appends to the updates table. -/
theorem updateLocalDecision_agrees (s : Store) (rec : PoolRecordRow) (blockId : BlockId)
    (blockHeight : Nat) (d : Decision) :
    agreesExceptUpdates (updateLocalDecision s rec blockId blockHeight d) s :=
  ⟨rfl, rfl, rfl, rfl, rfl, rfl, rfl, rfl, rfl⟩

/-- Helper: invariant of the abort loop over one proposal's transactions.
`base` is the store at loop entry; since every iteration appends only
updates for the transaction just handled, and the handled transactions have
pairwise distinct ids, every lookup in the loop agrees with `base`.  On
success the final store extends the entry store with exactly one `Abort`
local-decision update, keyed by the candidate block, per unresolved
transaction, and the flag records whether any unresolved transaction was
seen. -/
theorem abortLoop_spec (b : Block) (base : Store) :
    ∀ (ts : List TransactionRecord) (s : Store) (flag : Bool),
      (∀ t ∈ ts, transactionPoolGet s b.id t.id = transactionPoolGet base b.id t.id) →
      (∀ t ∈ ts, t.isFinalized = true → (transactionPoolGet base b.id t.id).isSome = true) →
      (ts.map (fun t => t.id)).Nodup →
      ∃ s', abortLoop b ts s flag = some (s', flag || !(unresolvedIn base b ts).isEmpty) ∧
        s'.poolUpdates.map updProj = s.poolUpdates.map updProj ++
          (unresolvedIn base b ts).map (fun t => (t.id, some Decision.Abort, b.id)) ∧
        agreesExceptUpdates s' s := by
  intro ts
  induction ts with
  | nil =>
    intro s flag _ _ _
    refine ⟨s, ?_, by simp [unresolvedIn], agreesExceptUpdates_refl s⟩
    simp [abortLoop, unresolvedIn]
  | cons t rest ih =>
    intro s flag hagree hpool hnodup
    have hmemt : t ∈ t :: rest := List.mem_cons_self t rest
    have hat : transactionPoolGet s b.id t.id = transactionPoolGet base b.id t.id :=
      hagree t hmemt
    have hagree_rest : ∀ t' ∈ rest,
        transactionPoolGet s b.id t'.id = transactionPoolGet base b.id t'.id :=
      fun t' h' => hagree t' (List.mem_cons.mpr (Or.inr h'))
    have hpool_rest : ∀ t' ∈ rest, t'.isFinalized = true →
        (transactionPoolGet base b.id t'.id).isSome = true :=
      fun t' h' => hpool t' (List.mem_cons.mpr (Or.inr h'))
    have hnodup' := hnodup
    rw [List.map_cons, List.nodup_cons] at hnodup'
    obtain ⟨hnotmem, hnodup_rest⟩ := hnodup'
    rw [abortLoop]
    by_cases hf : t.isFinalized = true
    · rw [if_pos hf]
      cases hg : transactionPoolGet base b.id t.id with
      | none =>
        exact absurd (hpool t hmemt hf) (by simp [hg])
      | some rec =>
        rw [hat, hg]
        dsimp only
        have hrid : rec.transactionId = t.id :=
          transactionPoolGet_transactionId base b.id t.id rec hg
        by_cases hstage : (rec.stage == TransactionPoolStage.New ||
            rec.stage == TransactionPoolStage.Prepared) = true
        · rw [if_pos hstage]
          have hunres : unresolvedIn base b (t :: rest) = t :: unresolvedIn base b rest := by
            rw [unresolvedIn, List.filter_cons, hg]
            simp only [hf, hstage, Bool.true_and, if_true]
            rfl
          have hagree₁ : ∀ t' ∈ rest,
              transactionPoolGet (updateLocalDecision s rec b.id b.height Decision.Abort)
                b.id t'.id = transactionPoolGet base b.id t'.id := by
            intro t' h'
            have hne : rec.transactionId ≠ t'.id := by
              rw [hrid]
              intro hcontra
              exact hnotmem (hcontra ▸ List.mem_map_of_mem (fun x => x.id) h')
            have happ : transactionPoolGet
                (updateLocalDecision s rec b.id b.height Decision.Abort) b.id t'.id =
                transactionPoolGet s b.id t'.id := by
              rw [updateLocalDecision]
              exact transactionPoolGet_append_ne s _ b.id t'.id hne
            rw [happ]
            exact hagree_rest t' h'
          obtain ⟨s', hrun, hupd, hfields⟩ :=
            ih (updateLocalDecision s rec b.id b.height Decision.Abort) true
              hagree₁ hpool_rest hnodup_rest
          refine ⟨s', ?_, ?_, ?_⟩
          · rw [hrun, hunres]
            simp
          · rw [hupd, hunres]
            have hul : (updateLocalDecision s rec b.id b.height
                Decision.Abort).poolUpdates.map updProj =
                s.poolUpdates.map updProj ++ [(t.id, some Decision.Abort, b.id)] := by
              rw [updateLocalDecision]
              simp [updProj, hrid]
            rw [hul, List.map_cons]
            rw [List.append_assoc]
            rfl
          · exact agreesExceptUpdates_trans s' _ s hfields
              (updateLocalDecision_agrees s rec b.id b.height Decision.Abort)
        · rw [if_neg hstage]
          have hunres : unresolvedIn base b (t :: rest) = unresolvedIn base b rest := by
            rw [unresolvedIn, List.filter_cons, hg]
            simp only [hf, hstage, Bool.true_and, Bool.false_eq_true, if_false]
            rfl
          obtain ⟨s', hrun, hupd, hfields⟩ := ih s flag hagree_rest hpool_rest hnodup_rest
          exact ⟨s', by rw [hrun, hunres], by rw [hupd, hunres], hfields⟩
    · rw [if_neg hf]
      have hunres : unresolvedIn base b (t :: rest) = unresolvedIn base b rest := by
        rw [unresolvedIn, List.filter_cons]
        have hft : t.isFinalized = false := by
          cases hx : t.isFinalized
          · rfl
          · exact absurd hx hf
        simp only [hft, Bool.false_and, Bool.false_eq_true, if_false]
        rfl
      obtain ⟨s', hrun, hupd, hfields⟩ := ih s flag hagree_rest hpool_rest hnodup_rest
      exact ⟨s', by rw [hrun, hunres], by rw [hupd, hunres], hfields⟩

/-- Helper: one iteration of the foreign-proposal loop — the abort loop
appends exactly one `Abort` local-decision update per unresolved
transaction, and the proposal row is deleted exactly when no unresolved
transaction was found. -/
theorem processProposal_spec (s : Store) (b : Block) (p : ForeignProposal)
    (hnodup : (s.transactions.map (fun t => t.id)).Nodup)
    (hpool : ∀ t ∈ transactionsGetAny s p.transactions, t.isFinalized = true →
      (transactionPoolGet s b.id t.id).isSome = true) :
    ∃ s', processProposal b s p = some s' ∧
      s'.poolUpdates.map updProj = s.poolUpdates.map updProj ++
        (unresolvedOf s b p).map (fun t => (t.id, some Decision.Abort, b.id)) ∧
      s'.blocks = s.blocks ∧ s'.pool = s.pool ∧ s'.transactions = s.transactions ∧
      s'.foreignProposals =
        (if (unresolvedOf s b p).isEmpty then
          s.foreignProposals.filter (fun q =>
            !(q.bucket == p.bucket && q.blockId == p.blockId &&
              q.transactions == p.transactions &&
              q.baseLayerBlockHeight == p.baseLayerBlockHeight))
        else s.foreignProposals) := by
  have hfn : ((transactionsGetAny s p.transactions).map (fun t => t.id)).Nodup :=
    List.Nodup.sublist (List.Sublist.map _ (List.filter_sublist _)) hnodup
  obtain ⟨s₁, hrun, hupd, hfields⟩ :=
    abortLoop_spec b s (transactionsGetAny s p.transactions) s false
      (fun _ _ => rfl) hpool hfn
  obtain ⟨hb1, _, _, ht1, hp1, hf1, _, _, _⟩ := hfields
  have hofeq : unresolvedIn s b (transactionsGetAny s p.transactions) = unresolvedOf s b p :=
    rfl
  rw [processProposal, hrun, hofeq]
  by_cases he : (unresolvedOf s b p).isEmpty
  · refine ⟨foreignProposalDelete s₁ p, ?_, ?_, ?_, ?_, ?_, ?_⟩
    · simp [he]
    · rw [hofeq] at hupd
      exact hupd
    · exact hb1
    · exact hp1
    · exact ht1
    · rw [if_pos he, foreignProposalDelete]
      simp only []
      rw [hf1]
  · refine ⟨s₁, ?_, ?_, hb1, hp1, ht1, ?_⟩
    · have hne : (!(unresolvedOf s b p).isEmpty) = true := by
        simp [he]
      simp [hne]
    · rw [hofeq] at hupd
      exact hupd
    · rw [if_neg he]
      exact hf1

/-- C5 (spec-modelled pool operations): for a valid candidate block `b`,
every foreign proposal in state `Proposed` with
`proposed_height ≤ b.height - 1000` is selected by the reconciliation
(which folds `processProposal` over exactly that selection), and processing
it appends an `Abort` local-decision update, keyed by `b`, for precisely
those of its known transactions that are finalized but whose effective pool
stage is still `New` or `Prepared`; the proposal is deleted if and only if
no such unresolved transaction was found.  Hypotheses: the transactions
table has unique ids and every finalized transaction of the proposal still
has a pool record (otherwise the loop aborts with a storage error). -/
theorem c5_foreign_proposal_reconciliation (s : Store) (b : Block) (p : ForeignProposal)
    (hmem : p ∈ s.foreignProposals) (hstate : p.state = ForeignProposalState.Proposed)
    (hheight : p.proposedHeight ≤ b.height - FOREIGN_PROPOSAL_TIMEOUT)
    (hnodup : (s.transactions.map (fun t => t.id)).Nodup)
    (hpool : ∀ t ∈ transactionsGetAny s p.transactions, t.isFinalized = true →
      (transactionPoolGet s b.id t.id).isSome = true) :
    p ∈ foreignProposalGetAllProposed s (b.height - FOREIGN_PROPOSAL_TIMEOUT) ∧
    updateForeignProposalTransactions s b =
      (foreignProposalGetAllProposed s (b.height - FOREIGN_PROPOSAL_TIMEOUT)).foldlM
        (processProposal b) s ∧
    ∃ s', processProposal b s p = some s' ∧
      s'.poolUpdates.map updProj = s.poolUpdates.map updProj ++
        (unresolvedOf s b p).map (fun t => (t.id, some Decision.Abort, b.id)) ∧
      (p ∉ s'.foreignProposals ↔ unresolvedOf s b p = []) := by
  refine ⟨?_, rfl, ?_⟩
  · simp [foreignProposalGetAllProposed, List.mem_filter, hmem, hstate, hheight]
  · obtain ⟨s', hrun, hupd, _, _, _, hfp⟩ := processProposal_spec s b p hnodup hpool
    refine ⟨s', hrun, hupd, ?_⟩
    by_cases he : (unresolvedOf s b p).isEmpty
    · rw [if_pos he] at hfp
      constructor
      · intro _
        exact List.isEmpty_iff.mp he
      · intro _ hcontra
        rw [hfp] at hcontra
        have := (List.mem_filter.mp hcontra).2
        simp at this
    · rw [if_neg he] at hfp
      constructor
      · intro hnot
        rw [hfp] at hnot
        exact absurd hmem hnot
      · intro hempty
        exact absurd (by simp [hempty]) he

/-- Witness for C5 at the concrete timeout scenario: a `Proposed` proposal
at height 0 against a height-1010 candidate, whose single transaction is
finalized but still `Prepared`, gets an `Abort` update and the proposal is
retained. -/
theorem c5_foreign_proposal_reconciliation_witness :
    fpX ∈ foreignProposalGetAllProposed storeTimeout
      (blockTimeout.height - FOREIGN_PROPOSAL_TIMEOUT) ∧
    updateForeignProposalTransactions storeTimeout blockTimeout =
      (foreignProposalGetAllProposed storeTimeout
        (blockTimeout.height - FOREIGN_PROPOSAL_TIMEOUT)).foldlM
          (processProposal blockTimeout) storeTimeout ∧
    ∃ s', processProposal blockTimeout storeTimeout fpX = some s' ∧
      s'.poolUpdates.map updProj = storeTimeout.poolUpdates.map updProj ++
        (unresolvedOf storeTimeout blockTimeout fpX).map
          (fun t => (t.id, some Decision.Abort, blockTimeout.id)) ∧
      (fpX ∉ s'.foreignProposals ↔ unresolvedOf storeTimeout blockTimeout fpX = []) :=
  c5_foreign_proposal_reconciliation storeTimeout blockTimeout fpX
    (by decide) (by decide) (by decide) (by decide) (by decide)

end TariDan
